import Mathlib

/-!
Verification of the panel-grid engine of `cursed_panels.py`.

The grid is modelled row-major exactly as the Python list-of-lists
`self.stack`: the outer index `idx` runs over `length` entries, the inner
index `idy` over `width` entries.  The empty cell `''` is `none`; a symbol
(a character in Python) is `some s` with `s : Nat` (the symbol alphabet is
an ordered list of distinct values, so naturals are a faithful carrier).

Python's `random.Random` is modelled by an arbitrary stream of naturals
`stream : Nat → Nat`; `randint(0, n)` takes the next stream value modulo
`n + 1`.  Loops whose exit depends on the drawn values (`while` resampling
loops in `build_initial_stack` and `advance_stack`) are given explicit fuel
and return `none` when the fuel is exhausted, mirroring non-termination.
-/

set_option autoImplicit false

namespace CursedPanels

/-- A cell of the panel grid: `none` is the Python empty string `''`,
`some s` is a panel carrying symbol `s`. -/
abbrev Cell := Option Nat

/-- The panel grid, row-major as the Python `self.stack`. -/
abbrev Grid := List (List Cell)

/-- `MIN_MATCH` from the source (line 24). -/
def MIN_MATCH : Nat := 2

/-- Read the cell `stack[i][j]`, `none` when out of range. -/
def getCell (g : Grid) (i j : Nat) : Cell := (g.getD i []).getD j none

/-- Write the cell `stack[i][j] = c` (no-op when out of range). -/
def setCell (g : Grid) (i j : Nat) (c : Cell) : Grid :=
  g.set i ((g.getD i []).set j c)

/-- The grid invariant: every row has the configured width. -/
def Rect (g : Grid) (w : Nat) : Prop := ∀ r ∈ g, r.length = w

/-- Number of non-empty cells of the whole grid. -/
def countNE (g : Grid) : Nat := (g.map fun r => r.countP fun c => c.isSome).sum

/-! ### `check_stack`: the marking phase (source lines 244-274)

For every non-empty cell the source counts the contiguous forward
repetitions of its symbol along the outer axis (`same_right`, guarded by
`idx < length - MIN_MATCH`) and along the inner axis (`same_down`, guarded
by `idy < width - MIN_MATCH`), and when a count reaches `MIN_MATCH` it
marks the cell together with the counted cells.  Both axes reduce to the
same one-dimensional computation on the axis-aligned list of cells. -/

/-- Forward repetition count: how many leading cells of the list equal `e`
(the `while ... == elem` scans of `check_stack`). -/
def runFwd (e : Cell) : List Cell → Nat
  | [] => 0
  | c :: t => if c = e then runFwd e t + 1 else 0

/-- `same_right`/`same_down` for the cell at position `x` of the
axis-aligned cell list `s`, including the `x < s.length - MIN_MATCH`
guard of the source (with `Nat` truncated subtraction agreeing with the
Python comparison for every list length). -/
def fwdCnt (s : List Cell) (x : Nat) : Nat :=
  if x < s.length - MIN_MATCH then runFwd (s.getD x none) (s.drop (x + 1)) else 0

/-- Membership of position `i` in the marked set contributed by one axis:
some origin cell `x ≤ i` is non-empty, has forward count `≥ MIN_MATCH`,
and its marks `x, x+1, …, x + fwdCnt` cover `i`. -/
def marked1D (s : List Cell) (i : Nat) : Bool :=
  (List.range s.length).any fun x =>
    decide (x ≤ i) && (s.getD x none).isSome &&
      decide (MIN_MATCH ≤ fwdCnt s x) && decide (i ≤ x + fwdCnt s x)

/-- The outer-axis cell list through column `j` (the cells `stack[·][j]`). -/
def colO (g : Grid) (j : Nat) : List Cell := g.map fun r => r.getD j none

/-- The inner-axis cell list through row `i` (the cells `stack[i][·]`). -/
def rowI (g : Grid) (i : Nat) : List Cell := g.getD i []

/-- The marked set of `check_stack` as a decidable predicate on positions:
marks are contributed along the outer axis and along the inner axis. -/
def markedB (g : Grid) (i j : Nat) : Bool :=
  marked1D (colO g j) i || marked1D (rowI g i) j

/-- `elim = len(marked)`: the number of marked positions. -/
def elimCount (g : Grid) : Nat :=
  ((List.range g.length).map fun i =>
    ((List.range (g.getD i []).length).filter fun j => markedB g i j).length).sum

/-- The elimination batch: every marked cell is set to `''`, all marks
having been computed on the pre-elimination grid. -/
def elimGrid (g : Grid) : Grid :=
  (List.range g.length).map fun i =>
    (List.range (g.getD i []).length).map fun j =>
      if markedB g i j then none else getCell g i j

/-! ### `compact` (source lines 220-237)

The imperative double loop touches each column independently: for
`idx = 1, …, length-1` (ascending) a non-empty cell falls over the empty
cells below it (each step of the inner `while` writes the element one slot
down and empties its previous slot).  We model one column as the list of
its cells and rebuild the grid from the compacted columns. -/

/-- The inner `while` loop of `compact`: the element at index `k` keeps
swapping with the empty cell directly below until blocked. -/
def fall (c : List Cell) : Nat → List Cell
  | 0 => c
  | k + 1 =>
    if c.getD k none = none then
      fall ((c.set k (c.getD (k + 1) none)).set (k + 1) none) k
    else c

/-- The outer loop of `compact` on one column: positions `1, …, length-1`
in ascending order, each non-empty cell falling as far as possible. -/
def compactCol (c : List Cell) : List Cell :=
  (List.range' 1 (c.length - 1)).foldl
    (fun acc idx => if (acc.getD idx none).isSome then fall acc idx else acc) c

/-- The columns of the grid (width taken from the first row, which under
`Rect` is the configured width). -/
def colList (g : Grid) (w : Nat) : List (List Cell) :=
  (List.range w).map fun j => g.map fun r => r.getD j none

/-- Rebuild a row-major grid of `len` rows from its columns. -/
def fromCols (cols : List (List Cell)) (len : Nat) : Grid :=
  (List.range len).map fun i => cols.map fun c => c.getD i none

/-- The width the source reads off the stored `self.width`; under the
`Rect` invariant it equals the length of any row. -/
def widthHead (g : Grid) : Nat := (g.getD 0 []).length

/-- The Boolean result of `compact`: whether any cell moved.  A write
happens in the source exactly when some column changes. -/
def compactMoves (g : Grid) : Bool :=
  (colList g (widthHead g)).any fun c => decide (compactCol c ≠ c)

/-- The grid after `compact`. -/
def compactGrid (g : Grid) : Grid :=
  fromCols ((colList g (widthHead g)).map compactCol) g.length

/-- `compact` of the source: the moved flag together with the new grid. -/
def compact (g : Grid) : Bool × Grid := (compactMoves g, compactGrid g)

/-! ### `check_stack` scoring (source lines 282-302)

`total_score = round(elim**ELIM_SCORE_EXP + CHAIN_MULT * comp_score)` with
`ELIM_SCORE_EXP = 2`, `CHAIN_MULT = 1.5` and Python's round-half-to-even.
`elim² + 1.5·s` is the exact dyadic value `(2·elim² + 3·s)/2`, represented
exactly by the Python float for every reachable magnitude, so the score is
the integer `roundHalf2 (2·elim² + 3·s)`. -/

/-- Round `t / 2` half to even (Python `round` on an exact half-integer
float). -/
def roundHalf2 (t : Nat) : Nat :=
  if t % 2 = 0 then t / 2 else if (t / 2) % 2 = 0 then t / 2 else t / 2 + 1

/-- The score combination of one `check_stack` level: `round(e² + 1.5·s)`
when this level eliminated `e > 0` cells, the chained score `s` unchanged
otherwise. -/
def scoreCombine (e s : Nat) : Nat :=
  if 0 < e then roundHalf2 (2 * e ^ 2 + 3 * s) else s

/-- `check_stack` with explicit recursion fuel: mark, eliminate, compact,
and re-run the cycle on the compacted grid when compaction moved
anything.  Returns `(total_elims, total_score, final grid)`. -/
def checkStackF : Nat → Grid → Nat × Nat × Grid
  | 0, g => (0, 0, g)
  | fuel + 1, g =>
    let e := elimCount g
    let g1 := elimGrid g
    if compactMoves g1 then
      let r := checkStackF fuel (compactGrid g1)
      (e + r.1, scoreCombine e r.2.1, r.2.2)
    else
      (e, scoreCombine e 0, g1)

/-- `check_stack`: the fuel `2·countNE g + 2` is sufficient (proved below),
so this is the total function computed by the source recursion. -/
def check_stack (g : Grid) : Nat × Nat × Grid :=
  checkStackF (2 * countNE g + 2) g

/-- `swap_panel` (source lines 195-205): exchange two cells, then run the
match/eliminate/compact cycle. -/
def swap_panel (g : Grid) (old_x old_y new_x new_y : Nat) : Nat × Nat × Grid :=
  let old := getCell g old_x old_y
  let g1 := setCell g old_x old_y (getCell g new_x new_y)
  let g2 := setCell g1 new_x new_y old
  check_stack g2

/-- `game_over` (source lines 173-183): some cell of row `length - 1` is
non-empty. -/
def game_over (g : Grid) : Bool :=
  (g.getD (g.length - 1) []).any fun c => c.isSome

/-! ### `build_initial_stack` (source lines 77-130) -/

/-- One draw of `randint(0, nsym)`: the outcome `nsym` denotes the empty
cell, the others index into the symbol list. -/
def drawSym (stream : Nat → Nat) (i nsym : Nat) : Nat := stream i % (nsym + 1)

/-- `l >= cutoff` with `cutoff = MAX_INIT_HEIGHT * length = 0.75·length`;
the float product is exact, so the comparison is `3·length ≤ 4·l`. -/
def cutoffReached (l length : Nat) : Bool := 3 * length ≤ 4 * l

/-- 1 when the cell equals the candidate symbol, 0 otherwise (one term of
the `matches` list-comprehension length). -/
def countEq (c t : Cell) : Nat := if c = t then 1 else 0

/-- The resampling `while bad_row or bad_col` loop of
`build_initial_stack`: draw, break on the empty outcome, otherwise lower a
flag whose two-predecessor check passes (flags are never raised again) and
exit when both flags are down, keeping the last drawn symbol.  Returns the
final `sym` (`nsym` for empty) and the next stream index. -/
def initLoop (symbols : List Nat) (stack : Grid) (row : List Cell) (l w : Nat)
    (stream : Nat → Nat) : Nat → Nat → Bool → Bool → Option (Nat × Nat)
  | 0, _, _, _ => none
  | fuel + 1, i, br, bc =>
    let nsym := symbols.length
    let sym := drawSym stream i nsym
    if sym = nsym then some (sym, i + 1)
    else
      let t : Cell := some (symbols.getD sym 0)
      let br' := if MIN_MATCH ≤ l then
          (if countEq (getCell stack (l - 2) w) t + countEq (getCell stack (l - 1) w) t
              < MIN_MATCH then false else br)
        else false
      let bc' := if MIN_MATCH ≤ w then
          (if countEq (row.getD (w - 2) none) t + countEq (row.getD (w - 1) none) t
              < MIN_MATCH then false else bc)
        else false
      if br' || bc' then initLoop symbols stack row l w stream fuel (i + 1) br' bc'
      else some (sym, i + 1)

/-- One cell of the initial stack, at row `l = stack.length` and column
`w = row.length`: row 0 draws unconstrained; a cell above an empty cell or
at/after the cutoff is empty; otherwise the resampling loop runs. -/
def buildCell (symbols : List Nat) (length : Nat) (stack : Grid) (row : List Cell)
    (stream : Nat → Nat) (i fuel : Nat) : Option (Cell × Nat) :=
  let nsym := symbols.length
  let l := stack.length
  let w := row.length
  if l = 0 then
    let sym := drawSym stream i nsym
    some (if sym = nsym then none else some (symbols.getD sym 0), i + 1)
  else if getCell stack (l - 1) w = none then some (none, i)
  else if cutoffReached l length then some (none, i)
  else
    (initLoop symbols stack row l w stream fuel i true true).map fun p =>
      (if p.1 = nsym then none else some (symbols.getD p.1 0), p.2)

/-- Build the cells of one row left to right (`n` cells still to add). -/
def buildRow (symbols : List Nat) (length : Nat) (stack : Grid) (stream : Nat → Nat)
    (fuel : Nat) : Nat → List Cell × Nat → Option (List Cell × Nat)
  | 0, acc => some acc
  | n + 1, (row, i) =>
    match buildCell symbols length stack row stream i fuel with
    | none => none
    | some (c, i') => buildRow symbols length stack stream fuel n (row ++ [c], i')

/-- Build the rows of the initial stack top index first (`n` rows to add). -/
def buildRows (symbols : List Nat) (length width : Nat) (stream : Nat → Nat)
    (fuel : Nat) : Nat → Grid × Nat → Option (Grid × Nat)
  | 0, acc => some acc
  | n + 1, (stack, i) =>
    match buildRow symbols length stack stream fuel width ([], i) with
    | none => none
    | some (row, i') => buildRows symbols length width stream fuel n (stack ++ [row], i')

/-- `build_initial_stack`: the whole `length × width` generation pass. -/
def build_initial_stack (symbols : List Nat) (length width : Nat)
    (stream : Nat → Nat) (fuel : Nat) : Option Grid :=
  (buildRows symbols length width stream fuel length ([], 0)).map Prod.fst

/-! ### `advance_stack` and `update_stack` (source lines 132-153, 207-218) -/

/-- The `while bad_sym` redraw loop of `advance_stack`: redraw while both
immediate left neighbours in the new row equal the candidate. -/
def advLoop (symbols : List Nat) (row : List Cell) (w : Nat) (stream : Nat → Nat) :
    Nat → Nat → Nat → Option (Nat × Nat)
  | 0, _, _ => none
  | fuel + 1, i, sym =>
    if MIN_MATCH ≤ countEq (row.getD (w - 2) none) (some sym)
        + countEq (row.getD (w - 1) none) (some sym) then
      advLoop symbols row w stream fuel (i + 1)
        (symbols.getD (stream i % symbols.length) 0)
    else some (sym, i)

/-- Build the fully populated incoming row of `advance_stack`; `randint(0,
len(symbols) - 1)` raises on an empty alphabet, modelled as `none`. -/
def advRow (symbols : List Nat) (stream : Nat → Nat) (fuel : Nat) :
    Nat → List Cell × Nat → Option (List Cell × Nat)
  | 0, acc => some acc
  | n + 1, (row, i) =>
    if symbols.isEmpty then none
    else
      let sym := symbols.getD (stream i % symbols.length) 0
      let w := row.length
      if MIN_MATCH ≤ w then
        match advLoop symbols row w stream fuel (i + 1) sym with
        | none => none
        | some (sym', i') => advRow symbols stream fuel n (row ++ [some sym'], i')
      else advRow symbols stream fuel n (row ++ [some sym], i + 1)

/-- `advance_stack`: synthesize the new row, discard row `length - 1`,
insert the new row at index 0.  Returns the new grid and stream index. -/
def advance_stack (symbols : List Nat) (width : Nat) (g : Grid)
    (stream : Nat → Nat) (i fuel : Nat) : Option (Grid × Nat) :=
  (advRow symbols stream fuel width ([], i)).map fun p => (p.1 :: g.dropLast, p.2)

/-- `update_stack` (source lines 207-218): when an advance is due, advance,
run the match/eliminate/compact cycle, and test game over; when no advance
is due the source returns unbound locals (`NameError`), modelled by
`none`.  Returns `(elims, score, game_over, final grid)`. -/
def update_stack (symbols : List Nat) (width : Nat) (g : Grid)
    (stream : Nat → Nat) (i fuel : Nat) (ready : Bool) :
    Option (Nat × Nat × Bool × Grid) :=
  if ready then
    match advance_stack symbols width g stream i fuel with
    | none => none
    | some (g1, _) =>
      let r := check_stack g1
      some (r.1, r.2.1, game_over r.2.2, r.2.2)
  else none

/-! ### The pace gate (source lines 185-193, 304-323)

Times are rationals (the monotonic clock is opaque, comparable and
subtractable).  `advance_ready` compares the elapsed time against
`BASE_ADV_SPEED / log2(spd + 1)`; that threshold is a fixed real for a
fixed speed, so it enters the model as an abstract parameter `τ`. -/

structure PaceState where
  spd : Nat
  last_up : ℚ
  pause_diff : ℚ
  deriving DecidableEq

/-- `advance_ready` at time `now`, with threshold `τ` standing for
`BASE_ADV_SPEED / log2(spd + 1)`. -/
def advance_ready (s : PaceState) (now τ : ℚ) : Bool :=
  decide (τ ≤ now - s.last_up)

/-- `pause` at time `now`: record the already elapsed part of the interval. -/
def pause (s : PaceState) (now : ℚ) : PaceState :=
  { s with pause_diff := now - s.last_up }

/-- `unpause` at time `now`: replay the recorded elapsed part. -/
def unpause (s : PaceState) (now : ℚ) : PaceState :=
  { s with last_up := now - s.pause_diff }

/-! ### The controller (source lines 325-363, 375-557) -/

/-- `CursedCursor`: position, selection flag, dirty flag. -/
structure CursedCursor where
  px : Nat
  py : Nat
  select : Bool
  refresh : Bool
  deriving DecidableEq

/-- The controller state the reset path touches: score, the eliminated
panel accumulator `self.panels`, the stack speed, the construction-time
speed `self.base_spd`, the cursor, and the grid. -/
structure GameState where
  score : Nat
  panels : Nat
  spd : Nat
  base_spd : Nat
  cursor : CursedCursor
  stack : Grid
  deriving DecidableEq

/-- `CursedPanels.reset` (source lines 544-557): zero the score, restore
the construction speed, rebuild the stack; nothing else changes. -/
def reset (st : GameState) (symbols : List Nat) (length width : Nat)
    (stream : Nat → Nat) (fuel : Nat) : Option GameState :=
  (build_initial_stack symbols length width stream fuel).map fun g =>
    { st with score := 0, spd := st.base_spd, stack := g }

/-- A concrete controller state used by the examples below. -/
def stC9 : GameState :=
  { score := 10, panels := 5, spd := 3, base_spd := 1,
    cursor := { px := 2, py := 3, select := true, refresh := false },
    stack := [[none]] }

/-! ### Derived notions used by the claims -/

/-- Backward repetition count at position `i`: how many immediately
preceding cells equal the cell at `i`. -/
def bwdCnt (s : List Cell) (i : Nat) : Nat :=
  runFwd (s.getD i none) ((s.take i).reverse)

/-- The length of the maximal contiguous block of cells equal to the cell
at position `i` and containing it. -/
def runLen (s : List Cell) (i : Nat) : Nat :=
  bwdCnt s i + 1 + runFwd (s.getD i none) (s.drop (i + 1))

/-- The cell `(i, j)` lies in an eliminable run: it is non-empty and its
maximal run along the outer or the inner axis has length
`≥ MIN_MATCH + 1`. -/
def eliminable (g : Grid) (i j : Nat) : Bool :=
  (getCell g i j).isSome &&
    (decide (MIN_MATCH + 1 ≤ runLen (colO g j) i) ||
      decide (MIN_MATCH + 1 ≤ runLen (rowI g i) j))

/-- No cell of the grid lies in an eliminable run. -/
def runFree (g : Grid) : Bool :=
  (List.range g.length).all fun i =>
    (List.range (g.getD i []).length).all fun j => !eliminable g i j

/-- The score the chained (post-compaction) recursive call of
`check_stack` contributes: the score of the recursive call when
compaction moved anything, `0` otherwise. -/
def chainScore (g : Grid) : Nat :=
  if compactMoves (elimGrid g) then (check_stack (compactGrid (elimGrid g))).2.1
  else 0

/-- Termination measure of the `check_stack` recursion. -/
def mu (g : Grid) : Nat := 2 * countNE g + (if compactMoves g then 1 else 0)

/-- Stable compaction of one column: the non-empty cells in their original
order, followed by the empty cells (what `compact` computes, proved
below). -/
def sc (l : List Cell) : List Cell :=
  l.filter (·.isSome) ++ List.replicate (l.length - l.countP (·.isSome)) none

/-! ## Supporting list lemmas -/

theorem MIN_MATCH_def : MIN_MATCH = 2 := rfl

theorem getD_drop (s : List Cell) (m k : Nat) :
    (s.drop m).getD k none = s.getD (m + k) none := by
  induction s generalizing m with
  | nil => simp
  | cons c t ih =>
    cases m with
    | zero => simp
    | succ m =>
      have : m + 1 + k = (m + k) + 1 := by omega
      simp [this, ih m]

theorem getD_take (s : List Cell) (m k : Nat) (h : k < m) :
    (s.take m).getD k none = s.getD k none := by
  induction s generalizing m k with
  | nil => simp
  | cons c t ih =>
    cases m with
    | zero => omega
    | succ m =>
      cases k with
      | zero => simp
      | succ k => simpa using ih m k (by omega)

theorem getD_lt_of_isSome (s : List Cell) (i : Nat)
    (h : (s.getD i none).isSome = true) : i < s.length := by
  by_contra hc
  rw [s.getD_eq_default none (by omega)] at h
  simp at h

theorem getD_reverse (s : List Cell) (k : Nat) (h : k < s.length) :
    s.reverse.getD k none = s.getD (s.length - 1 - k) none := by
  rw [List.getD_eq_getElem _ none (by simpa using h),
    List.getD_eq_getElem _ none (by omega)]
  exact List.getElem_reverse ..

theorem runFwd_le_length (e : Cell) (t : List Cell) : runFwd e t ≤ t.length := by
  induction t with
  | nil => simp [runFwd]
  | cons c t ih =>
    rw [runFwd]
    split <;> (simp only [List.length_cons]; omega)

theorem le_runFwd_iff (e : Cell) (t : List Cell) (n : Nat) :
    n ≤ runFwd e t ↔ n ≤ t.length ∧ ∀ k, k < n → t.getD k none = e := by
  induction t generalizing n with
  | nil =>
    simp only [runFwd, List.length_nil, Nat.le_zero]
    constructor
    · rintro rfl; exact ⟨rfl, by omega⟩
    · rintro ⟨rfl, _⟩; rfl
  | cons c t ih =>
    rw [runFwd]
    cases n with
    | zero => simp
    | succ n =>
      split
      · rename_i hc
        subst hc
        rw [Nat.succ_le_succ_iff, ih, List.length_cons, Nat.succ_le_succ_iff]
        constructor
        · rintro ⟨h1, h2⟩
          refine ⟨h1, fun k hk => ?_⟩
          cases k with
          | zero => simp
          | succ k => simpa using h2 k (by omega)
        · rintro ⟨h1, h2⟩
          exact ⟨h1, fun k hk => by simpa using h2 (k + 1) (by omega)⟩
      · rename_i hc
        simp only [Nat.le_zero]
        constructor
        · omega
        · rintro ⟨-, h2⟩
          have := h2 0 (by omega)
          simp at this
          exact absurd this hc

theorem runFwd_getD (e : Cell) (t : List Cell) (k : Nat) (h : k < runFwd e t) :
    t.getD k none = e :=
  ((le_runFwd_iff e t (runFwd e t)).1 le_rfl).2 k h

/-! ## The marking phase computes the cells of runs of length `MIN_MATCH + 1` -/

theorem fwdCnt_eq_of_guard (s : List Cell) (x : Nat) (h : x < s.length - MIN_MATCH) :
    fwdCnt s x = runFwd (s.getD x none) (s.drop (x + 1)) := by
  rw [fwdCnt, if_pos h]

theorem fwdCnt_guard_of_pos (s : List Cell) (x : Nat) (h : 0 < fwdCnt s x) :
    x < s.length - MIN_MATCH := by
  by_contra hc
  rw [fwdCnt, if_neg hc] at h
  omega

theorem add_fwdCnt_lt (s : List Cell) (x : Nat) (h : 0 < fwdCnt s x) :
    x + fwdCnt s x < s.length := by
  have hg := fwdCnt_guard_of_pos s x h
  rw [fwdCnt_eq_of_guard s x hg]
  have hb := runFwd_le_length (s.getD x none) (s.drop (x + 1))
  rw [List.length_drop] at hb
  have hm : MIN_MATCH = 2 := rfl
  omega

/-- The one-dimensional marking characterization: a position is marked
along one axis exactly when its cell is non-empty and lies in a maximal
contiguous block of equal cells of length at least `MIN_MATCH + 1`. -/
theorem marked1D_iff (s : List Cell) (i : Nat) :
    marked1D s i = true ↔
      (s.getD i none).isSome = true ∧ MIN_MATCH + 1 ≤ runLen s i := by
  have hm : MIN_MATCH = 2 := rfl
  constructor
  · intro h
    rcases List.any_eq_true.1 h with ⟨x, hxmem, hcond⟩
    rw [List.mem_range] at hxmem
    simp only [Bool.and_eq_true, decide_eq_true_eq] at hcond
    obtain ⟨⟨⟨hxi, hsome⟩, hf2⟩, hcov⟩ := hcond
    have hfpos : 0 < fwdCnt s x := by omega
    have hg := fwdCnt_guard_of_pos s x hfpos
    have hfeq := fwdCnt_eq_of_guard s x hg
    have hrun : ∀ k, k < fwdCnt s x → s.getD (x + 1 + k) none = s.getD x none := by
      intro k hk
      have hr := runFwd_getD (s.getD x none) (s.drop (x + 1)) k (by omega)
      rwa [getD_drop] at hr
    have hxfl : x + fwdCnt s x < s.length := add_fwdCnt_lt s x hfpos
    have hseg : ∀ m, x ≤ m → m ≤ x + fwdCnt s x →
        s.getD m none = s.getD x none := by
      intro m h1 h2
      rcases Nat.eq_or_lt_of_le h1 with rfl | h1
      · rfl
      · have hr := hrun (m - x - 1) (by omega)
        have hx : x + 1 + (m - x - 1) = m := by omega
        rwa [hx] at hr
    have hieq : s.getD i none = s.getD x none := hseg i hxi hcov
    refine ⟨by rw [hieq]; exact hsome, ?_⟩
    have hbwd : i - x ≤ bwdCnt s i := by
      rw [bwdCnt, le_runFwd_iff]
      constructor
      · rw [List.length_reverse, List.length_take]
        omega
      · intro k hk
        have htl : (s.take i).length = i := by
          rw [List.length_take]; omega
        rw [getD_reverse _ k (by rw [htl]; omega), htl,
          getD_take _ _ _ (by omega), hieq]
        exact hseg (i - 1 - k) (by omega) (by omega)
    have hfwd : x + fwdCnt s x - i ≤ runFwd (s.getD i none) (s.drop (i + 1)) := by
      rw [le_runFwd_iff]
      constructor
      · rw [List.length_drop]; omega
      · intro k hk
        rw [getD_drop, hieq]
        exact hseg (i + 1 + k) (by omega) (by omega)
    rw [runLen]
    omega
  · rintro ⟨hsome, hlen3⟩
    have hil : i < s.length := getD_lt_of_isSome s i hsome
    rw [runLen] at hlen3
    have hfbound : runFwd (s.getD i none) (s.drop (i + 1)) ≤ s.length - (i + 1) := by
      have hb := runFwd_le_length (s.getD i none) (s.drop (i + 1))
      rwa [List.length_drop] at hb
    have hbbound : bwdCnt s i ≤ i := by
      have hb := runFwd_le_length (s.getD i none) ((s.take i).reverse)
      rw [List.length_reverse, List.length_take] at hb
      have hb2 : bwdCnt s i ≤ min i s.length := hb
      omega
    have hbk : ∀ k, k < bwdCnt s i → s.getD (i - 1 - k) none = s.getD i none := by
      intro k hk
      have hr := runFwd_getD (s.getD i none) ((s.take i).reverse) k hk
      have htl : (s.take i).length = i := by
        rw [List.length_take]; omega
      rwa [getD_reverse _ k (by rw [htl]; omega), htl,
        getD_take _ _ _ (by omega)] at hr
    have hfk : ∀ k, k < runFwd (s.getD i none) (s.drop (i + 1)) →
        s.getD (i + 1 + k) none = s.getD i none := by
      intro k hk
      have hr := runFwd_getD (s.getD i none) (s.drop (i + 1)) k hk
      rwa [getD_drop] at hr
    have hseg : ∀ m, i - bwdCnt s i ≤ m →
        m ≤ i + runFwd (s.getD i none) (s.drop (i + 1)) →
        s.getD m none = s.getD i none := by
      intro m h1 h2
      rcases Nat.lt_trichotomy m i with hlt | heq | hgt
      · have hr := hbk (i - 1 - m) (by omega)
        have hx : i - 1 - (i - 1 - m) = m := by omega
        rwa [hx] at hr
      · rw [heq]
      · have hr := hfk (m - i - 1) (by omega)
        have hx : i + 1 + (m - i - 1) = m := by omega
        rwa [hx] at hr
    have hguard : i - bwdCnt s i < s.length - MIN_MATCH := by omega
    have hfx : MIN_MATCH ≤ fwdCnt s (i - bwdCnt s i) ∧
        i ≤ i - bwdCnt s i + fwdCnt s (i - bwdCnt s i) := by
      rw [fwdCnt_eq_of_guard s _ hguard]
      have hxeq : s.getD (i - bwdCnt s i) none = s.getD i none :=
        hseg _ (by omega) (by omega)
      have hge : bwdCnt s i + runFwd (s.getD i none) (s.drop (i + 1)) ≤
          runFwd (s.getD (i - bwdCnt s i) none)
            (s.drop (i - bwdCnt s i + 1)) := by
        rw [le_runFwd_iff]
        constructor
        · rw [List.length_drop]; omega
        · intro k hk
          rw [getD_drop, hxeq]
          exact hseg (i - bwdCnt s i + 1 + k) (by omega) (by omega)
      omega
    rw [marked1D, List.any_eq_true]
    refine ⟨i - bwdCnt s i, List.mem_range.2 (by omega), ?_⟩
    have hxsome : (s.getD (i - bwdCnt s i) none).isSome = true := by
      rw [hseg _ (by omega) (by omega)]
      exact hsome
    simp only [Bool.and_eq_true, decide_eq_true_eq]
    exact ⟨⟨⟨by omega, hxsome⟩, hfx.1⟩, hfx.2⟩

theorem getD_colO (g : Grid) (i j : Nat) :
    (colO g j).getD i none = getCell g i j := by
  rcases Nat.lt_or_ge i g.length with h | h
  · rw [colO, getCell, List.getD_eq_getElem _ none (by simpa using h),
      List.getElem_map, List.getD_eq_getElem _ [] h]
  · rw [colO, getCell, List.getD_eq_default _ none (by simpa using h),
      List.getD_eq_default _ [] h]
    simp

theorem getD_rowI (g : Grid) (i j : Nat) :
    (rowI g i).getD j none = getCell g i j := rfl

/-- The grid-level marking characterization: `check_stack` marks exactly
the non-empty cells whose maximal run along the outer or the inner axis
has length at least `MIN_MATCH + 1`. -/
theorem markedB_iff_eliminable (g : Grid) (i j : Nat) :
    markedB g i j = eliminable g i j := by
  rw [Bool.eq_iff_iff, markedB, eliminable, Bool.or_eq_true,
    marked1D_iff, marked1D_iff, getD_colO, getD_rowI]
  simp only [Bool.and_eq_true, Bool.or_eq_true, decide_eq_true_eq]
  tauto

theorem getCell_out_of_row (g : Grid) (i j : Nat)
    (h : (g.getD i []).length ≤ j) : getCell g i j = none :=
  List.getD_eq_default _ none h

/-- The elimination batch sets exactly the marked cells to the empty cell,
leaving every other cell unchanged. -/
theorem getCell_elimGrid (g : Grid) (i j : Nat) :
    getCell (elimGrid g) i j = if markedB g i j then none else getCell g i j := by
  have hL : (elimGrid g).length = g.length := by
    rw [elimGrid, List.length_map, List.length_range]
  rcases Nat.lt_or_ge i g.length with hi | hi
  · have hrow : (elimGrid g).getD i [] =
        (List.range (g.getD i []).length).map fun j =>
          if markedB g i j then none else getCell g i j := by
      rw [elimGrid, List.getD_eq_getElem _ []
          (by rw [List.length_map, List.length_range]; omega),
        List.getElem_map, List.getElem_range]
    rcases Nat.lt_or_ge j (g.getD i []).length with hj | hj
    · rw [getCell, hrow, List.getD_eq_getElem _ none
        (by rw [List.length_map, List.length_range]; omega),
        List.getElem_map, List.getElem_range]
    · rw [getCell, hrow, List.getD_eq_default _ none
        (by rw [List.length_map, List.length_range]; omega),
        getCell_out_of_row g i j hj]
      split <;> rfl
  · rw [getCell, List.getD_eq_default _ [] (by omega)]
    rw [getCell, List.getD_eq_default _ [] (by omega)]
    simp only [List.getD_nil]
    split <;> rfl

/-- Marked cells are non-empty. -/
theorem markedB_isSome (g : Grid) (i j : Nat) (h : markedB g i j = true) :
    (getCell g i j).isSome = true := by
  rw [markedB_iff_eliminable, eliminable, Bool.and_eq_true] at h
  exact h.1

/-! ## `compact` computes the stable compaction of each column -/

theorem length_sc (l : List Cell) : (sc l).length = l.length := by
  rw [sc, List.length_append, List.length_replicate,
    List.countP_eq_length_filter]
  have h := List.length_filter_le (·.isSome) l
  omega

theorem sc_append_none (l : List Cell) : sc (l ++ [none]) = sc l ++ [none] := by
  have hc : l.countP (·.isSome) ≤ l.length := List.countP_le_length _
  rw [sc, sc, List.filter_append, List.countP_append, List.length_append]
  simp only [List.filter_cons, List.filter_nil, Option.isSome_none,
    Bool.false_eq_true, if_false, List.countP_cons, List.countP_nil,
    List.length_cons, List.length_nil, List.append_nil]
  have h1 : l.length + (0 + 1) - (l.countP (·.isSome) + (0 + 0)) =
      (l.length - l.countP (·.isSome)) + 1 := by omega
  rw [h1, List.replicate_succ' _ _, ← List.append_assoc]

theorem sc_append_some (l : List Cell) (e : Nat) :
    sc (l ++ [some e]) =
      l.filter (·.isSome) ++
        some e :: List.replicate (l.length - l.countP (·.isSome)) none := by
  have hc : l.countP (·.isSome) ≤ l.length := List.countP_le_length _
  rw [sc, List.filter_append, List.countP_append, List.length_append]
  simp only [List.filter_cons, List.filter_nil, Option.isSome_some, if_true,
    List.countP_cons, List.countP_nil, List.length_cons, List.length_nil]
  have h1 : l.length + 1 - (l.countP (·.isSome) + (0 + 1)) =
      l.length - l.countP (·.isSome) := by omega
  rw [h1, List.append_assoc]
  rfl

theorem take_succ_getD (l : List Cell) (n : Nat) (h : n < l.length) :
    l.take (n + 1) = l.take n ++ [l.getD n none] := by
  rw [List.take_succ, List.getElem?_eq_getElem h,
    List.getD_eq_getElem _ _ h]
  rfl

theorem drop_getD_cons (l : List Cell) (n : Nat) (h : n < l.length) :
    l.drop n = l.getD n none :: l.drop (n + 1) := by
  rw [List.drop_eq_getElem_cons h, List.getD_eq_getElem _ _ h]

theorem getD_replicate_lt (m k : Nat) (h : k < m) :
    (List.replicate m (none : Cell)).getD k none = none := by
  rw [List.getD_eq_getElem _ _ (by simpa using h)]
  exact List.getElem_replicate ..

/-- The inner falling loop, on a column made of a fully non-empty prefix
`F`, a block of `d` empty cells, and then the falling element: the element
lands directly after `F` and the empty block shifts up past it. -/
theorem fall_shape (d : Nat) : ∀ (F : List Cell) (e : Nat) (rest : List Cell),
    (∀ x ∈ F, x.isSome = true) →
    fall (F ++ (List.replicate d none ++ some e :: rest)) (F.length + d) =
      F ++ (some e :: (List.replicate d none ++ rest)) := by
  induction d with
  | zero =>
    intro F e rest hF
    simp only [List.replicate_zero, List.nil_append, Nat.add_zero]
    match hFl : F.length with
    | 0 =>
      have : F = [] := List.length_eq_zero.1 hFl
      subst this
      rfl
    | m + 1 =>
      rw [fall]
      have hm : m < F.length := by omega
      rw [List.getD_append _ _ _ _ hm, List.getD_eq_getElem _ _ hm]
      have hsome := hF _ (List.getElem_mem hm)
      rw [if_neg (by simp [Option.isSome_iff_ne_none] at hsome; exact hsome)]
  | succ d ih =>
    intro F e rest hF
    have hidx : F.length + (d + 1) = (F.length + d) + 1 := by omega
    rw [hidx, fall]
    have hget : (F ++ (List.replicate (d + 1) none ++ some e :: rest)).getD
        (F.length + d) none = none := by
      rw [List.getD_append_right _ _ _ _ (by omega), Nat.add_sub_cancel_left,
        List.getD_append _ _ _ _ (by simp), getD_replicate_lt _ _ (by omega)]
    rw [if_pos hget]
    have hget2 : (F ++ (List.replicate (d + 1) none ++ some e :: rest)).getD
        (F.length + d + 1) none = some e := by
      rw [List.getD_append_right _ _ _ _ (by omega)]
      have h1 : F.length + d + 1 - F.length = d + 1 := by omega
      rw [h1, List.getD_append_right _ _ _ _ (by simp),
        List.length_replicate, Nat.sub_self]
      rfl
    rw [hget2]
    -- compute the two writes: the element moves one slot down
    have hsets :
        ((F ++ (List.replicate (d + 1) none ++ some e :: rest)).set
            (F.length + d) (some e)).set (F.length + d + 1) none =
          F ++ (List.replicate d none ++ some e :: (none :: rest)) := by
      have hrep : List.replicate (d + 1) (none : Cell) ++ some e :: rest =
          List.replicate d none ++ ([none] ++ some e :: rest) := by
        rw [List.replicate_succ' _ _, List.append_assoc]
      rw [hrep]
      have hs1 : (F ++ (List.replicate d none ++ ([none] ++ some e :: rest))).set
          (F.length + d) (some e) =
          F ++ (List.replicate d none ++ ([some e] ++ some e :: rest)) := by
        rw [List.set_append_right _ _ (by omega), Nat.add_sub_cancel_left]
        have h2 : (List.replicate d (none : Cell) ++ ([none] ++ some e :: rest)).set
            d (some e) = List.replicate d none ++ ([some e] ++ some e :: rest) := by
          rw [List.set_append_right _ _ (by simp),
            List.length_replicate, Nat.sub_self]
          rfl
        rw [h2]
      rw [hs1]
      rw [List.set_append_right _ _ (by omega)]
      have h3 : F.length + d + 1 - F.length = d + 1 := by omega
      rw [h3]
      have h4 : (List.replicate d (none : Cell) ++ ([some e] ++ some e :: rest)).set
          (d + 1) none = List.replicate d none ++ ([some e] ++ none :: rest) := by
        rw [List.set_append_right _ _ (by simp), List.length_replicate]
        have h5 : d + 1 - d = 1 := by omega
        rw [h5]
        rfl
      rw [h4]
      rfl
    rw [hsets, ih F e (none :: rest) hF]
    have hrep2 : List.replicate d (none : Cell) ++ none :: rest =
        List.replicate (d + 1) none ++ rest := by
      rw [List.replicate_succ' _ _, List.append_assoc]
      rfl
    rw [hrep2]

/-- The outer loop invariant of `compact` on one column: after the
positions up to `k` have been processed the prefix is stably compacted and
the rest untouched; running the remaining positions yields the stable
compaction of the whole column. -/
theorem compactCol_go (c : List Cell) : ∀ (m k : Nat) (s : List Cell),
    k + 1 + m = c.length →
    s = sc (c.take (k + 1)) ++ c.drop (k + 1) →
    (List.range' (k + 1) m).foldl
      (fun acc idx => if (acc.getD idx none).isSome then fall acc idx else acc) s
      = sc c := by
  intro m
  induction m with
  | zero =>
    intro k s hk hs
    rw [List.range'_zero, List.foldl_nil, hs,
      List.take_of_length_le (by omega), List.drop_of_length_le (by omega),
      List.append_nil]
  | succ m ih =>
    intro m_k s hk hs
    have hkl : m_k + 1 < c.length := by omega
    rw [List.range'_succ, List.foldl_cons]
    have hsget : s.getD (m_k + 1) none = c.getD (m_k + 1) none := by
      rw [hs, List.getD_append_right _ _ _ _
        (by rw [length_sc, List.length_take]; omega)]
      have h1 : m_k + 1 - (sc (c.take (m_k + 1))).length = 0 := by
        rw [length_sc, List.length_take]
        omega
      rw [h1, getD_drop]
    cases hcell : c.getD (m_k + 1) none with
    | none =>
      rw [hsget, hcell, if_neg (by simp)]
      refine ih (m_k + 1) s (by omega) ?_
      rw [hs, take_succ_getD c (m_k + 1) hkl, hcell, sc_append_none,
        drop_getD_cons c (m_k + 1) hkl, hcell, List.append_assoc]
      rfl
    | some e =>
      rw [hsget, hcell, if_pos (by simp)]
      have hs2 : s = (c.take (m_k + 1)).filter (·.isSome) ++
          (List.replicate ((c.take (m_k + 1)).length -
            (c.take (m_k + 1)).countP (·.isSome)) none ++
            some e :: c.drop (m_k + 2)) := by
        rw [hs, sc, drop_getD_cons c (m_k + 1) hkl, hcell, List.append_assoc]
      have hcnt : (c.take (m_k + 1)).countP (·.isSome) ≤ (c.take (m_k + 1)).length :=
        List.countP_le_length _
      have hFlen : ((c.take (m_k + 1)).filter (·.isSome)).length +
          ((c.take (m_k + 1)).length - (c.take (m_k + 1)).countP (·.isSome)) =
          m_k + 1 := by
        rw [← List.countP_eq_length_filter, List.length_take]
        rw [List.length_take] at hcnt
        omega
      have hfall := fall_shape
        ((c.take (m_k + 1)).length - (c.take (m_k + 1)).countP (·.isSome))
        ((c.take (m_k + 1)).filter (·.isSome)) e (c.drop (m_k + 2))
        (fun x hx => List.of_mem_filter hx)
      rw [hFlen] at hfall
      rw [hs2, hfall]
      refine ih (m_k + 1) _ (by omega) ?_
      rw [take_succ_getD c (m_k + 1) hkl, hcell, sc_append_some,
        List.append_assoc]
      rfl

/-- `compact` turns each column into its stable compaction. -/
theorem compactCol_eq_sc (c : List Cell) : compactCol c = sc c := by
  cases c with
  | nil => rfl
  | cons c0 t =>
    have h0 : sc [c0] = [c0] := by
      cases c0 <;> simp [sc]
    rw [compactCol]
    have hlen : (c0 :: t).length - 1 = t.length := by simp
    rw [hlen]
    refine compactCol_go (c0 :: t) t.length 0 (c0 :: t) (by simp; omega) ?_
    rw [show (c0 :: t).take 1 = [c0] from rfl, h0]
    rfl

theorem countP_replicate_none (n : Nat) :
    (List.replicate n (none : Cell)).countP (·.isSome) = 0 := by
  induction n with
  | zero => rfl
  | succ n ih => simp [List.replicate_succ, ih]

theorem sc_idem (c : List Cell) : sc (sc c) = sc c := by
  have hfilter : (sc c).filter (·.isSome) = c.filter (·.isSome) := by
    rw [sc, List.filter_append, List.filter_filter]
    have h2 : (List.replicate (c.length - c.countP (·.isSome))
        (none : Cell)).filter (·.isSome) = [] := by
      simp
    rw [h2, List.append_nil]
    simp
  have hcnt : (sc c).countP (·.isSome) = c.countP (·.isSome) := by
    rw [sc, List.countP_append, countP_replicate_none,
      List.countP_eq_length_filter, List.countP_eq_length_filter,
      List.filter_filter]
    simp
  have hunf : sc (sc c) = (sc c).filter (·.isSome) ++
      List.replicate ((sc c).length - (sc c).countP (·.isSome)) none := rfl
  rw [hunf, hfilter, hcnt, length_sc]
  rfl

theorem compactCol_length (c : List Cell) : (compactCol c).length = c.length := by
  rw [compactCol_eq_sc, length_sc]

theorem compactCol_countP (c : List Cell) :
    (compactCol c).countP (·.isSome) = c.countP (·.isSome) := by
  rw [compactCol_eq_sc, sc, List.countP_append, countP_replicate_none,
    List.countP_eq_length_filter, List.countP_eq_length_filter,
    List.filter_filter]
  simp

theorem compactCol_idem (c : List Cell) :
    compactCol (compactCol c) = compactCol c := by
  rw [compactCol_eq_sc, compactCol_eq_sc, sc_idem]

/-! ## Grid-level facts about `compact` and the elimination batch -/

theorem range_map_getD {α : Type} (l : List α) (d : α) :
    (List.range l.length).map (fun j => l.getD j d) = l := by
  apply List.ext_getElem
  · simp
  · intro i h1 h2
    simp only [List.getElem_map, List.getElem_range]
    rw [List.getD_eq_getElem _ _ h2]

theorem sum_map_add {α : Type} (l : List α) (f g : α → Nat) :
    (l.map fun a => f a + g a).sum = (l.map f).sum + (l.map g).sum := by
  induction l with
  | nil => rfl
  | cons a l ih => simp [ih]; omega

theorem countP_split {α : Type} (p q : α → Bool) : ∀ (l : List α),
    (∀ a ∈ l, q a = true → p a = true) →
    l.countP p = l.countP q + l.countP (fun a => p a && !q a) := by
  intro l
  induction l with
  | nil => intro; rfl
  | cons a l ih =>
    intro h
    have ha := h a (by simp)
    have hl := ih fun b hb => h b (by simp [hb])
    rw [List.countP_cons, List.countP_cons, List.countP_cons, hl]
    cases hq : q a
    · cases hp : p a <;> (simp [hp, hq]; try omega)
    · simp [ha hq, hq]
      omega

theorem countP_eq_sum_map {α : Type} (q : α → Bool) (l : List α) :
    l.countP q = (l.map fun a => if q a then 1 else 0).sum := by
  induction l with
  | nil => rfl
  | cons a l ih =>
    rw [List.countP_cons, List.map_cons, List.sum_cons, ih]
    cases hq : q a <;> (simp [hq]; try omega)

theorem countP_getD_sum (l : List Cell) :
    ((List.range l.length).map fun j =>
      if (l.getD j none).isSome then 1 else 0).sum = l.countP (·.isSome) := by
  rw [← countP_eq_sum_map]
  conv_rhs => rw [← range_map_getD l none]
  rw [List.countP_map]
  rfl

theorem length_colList (g : Grid) (w : Nat) : (colList g w).length = w := by
  rw [colList, List.length_map, List.length_range]

theorem mem_colList_length (g : Grid) (w : Nat) (c : List Cell)
    (hc : c ∈ colList g w) : c.length = g.length := by
  rw [colList] at hc
  rcases List.mem_map.1 hc with ⟨j, -, rfl⟩
  rw [List.length_map]

theorem length_fromCols (cols : List (List Cell)) (len : Nat) :
    (fromCols cols len).length = len := by
  rw [fromCols, List.length_map, List.length_range]

theorem rect_fromCols (cols : List (List Cell)) (len : Nat) :
    Rect (fromCols cols len) cols.length := by
  intro r hr
  rw [fromCols] at hr
  rcases List.mem_map.1 hr with ⟨i, -, rfl⟩
  rw [List.length_map]

/-- Rebuilding the grid from its own columns is the identity. -/
theorem fromCols_colList (g : Grid) (w : Nat) (hg : Rect g w) :
    fromCols (colList g w) g.length = g := by
  rw [fromCols]
  conv_rhs => rw [← range_map_getD g []]
  apply List.map_congr_left
  intro i hi
  rw [List.mem_range] at hi
  rw [colList, List.map_map]
  have hrow : (g.getD i []).length = w := hg _ (by
    rw [List.getD_eq_getElem _ _ hi]
    exact List.getElem_mem hi)
  conv_rhs => rw [← range_map_getD (g.getD i []) none]
  rw [hrow]
  apply List.map_congr_left
  intro j hj
  simp only [Function.comp]
  exact getD_colO g i j

/-- Reading the columns back off a rebuilt grid is the identity. -/
theorem colList_fromCols (cols : List (List Cell)) (len : Nat)
    (hc : ∀ c ∈ cols, c.length = len) :
    colList (fromCols cols len) cols.length = cols := by
  rw [colList]
  conv_rhs => rw [← range_map_getD cols []]
  apply List.map_congr_left
  intro j hj
  rw [List.mem_range] at hj
  rw [fromCols, List.map_map]
  have hcj : (cols.getD j []).length = len := hc _ (by
    rw [List.getD_eq_getElem _ _ hj]
    exact List.getElem_mem hj)
  conv_rhs => rw [← range_map_getD (cols.getD j []) none]
  rw [hcj]
  apply List.map_congr_left
  intro i hi
  simp only [Function.comp]
  have hlen2 : j < (cols.map fun c => c.getD i none).length := by
    rw [List.length_map]
    exact hj
  rw [List.getD_eq_getElem _ _ hlen2, List.getElem_map,
    List.getD_eq_getElem _ _ hj]

end CursedPanels

namespace CursedPanels

theorem widthHead_rect (r : List Cell) (g : Grid) (w : Nat)
    (hg : Rect (r :: g) w) : widthHead (r :: g) = w := by
  rw [widthHead]
  exact hg r (by simp)

theorem widthHead_fromCols (cols : List (List Cell)) (len : Nat) (h : 0 < len) :
    widthHead (fromCols cols len) = cols.length := by
  rw [widthHead, fromCols, List.getD_eq_getElem _ []
    (by rw [List.length_map, List.length_range]; omega)]
  simp

/-- `countNE` summed column by column. -/
theorem countNE_cols (g : Grid) (w : Nat) (hg : Rect g w) :
    countNE g = ((colList g w).map fun c => c.countP (·.isSome)).sum := by
  induction g with
  | nil => simp [countNE, colList]
  | cons r g ih =>
    have hr : r.length = w := hg r (by simp)
    have hg' : Rect g w := fun r' hr' => hg r' (by simp [hr'])
    rw [countNE, List.map_cons, List.sum_cons]
    rw [colList, List.map_map]
    have hfun : ((fun c : List Cell => c.countP (·.isSome)) ∘ fun j =>
        (r :: g).map fun row => row.getD j none) = fun j =>
        (g.map fun row => row.getD j none).countP (·.isSome) +
          (if (r.getD j none).isSome then 1 else 0) := by
      funext j
      simp only [Function.comp, List.map_cons, List.countP_cons]
    rw [hfun, sum_map_add]
    have h1 : ((List.range w).map fun j =>
        (g.map fun row => row.getD j none).countP (·.isSome)).sum =
        ((g.map fun r' => r'.countP fun c => c.isSome).sum) := by
      have := ih hg'
      rw [countNE] at this
      rw [this, colList, List.map_map]
      rfl
    have h2 : ((List.range w).map fun j =>
        if (r.getD j none).isSome then 1 else 0).sum = r.countP (·.isSome) := by
      rw [← hr]
      exact countP_getD_sum r
    rw [h1, h2]
    have h3 : (r.countP fun c => c.isSome) = r.countP (·.isSome) := rfl
    rw [h3]
    omega

theorem countNE_compactGrid (g : Grid) (w : Nat) (hg : Rect g w) :
    countNE (compactGrid g) = countNE g := by
  cases g with
  | nil => rfl
  | cons r g0 =>
    have hw : widthHead (r :: g0) = w := widthHead_rect r g0 w hg
    have hcols : ∀ c ∈ (colList (r :: g0) w).map compactCol,
        c.length = (r :: g0).length := by
      intro c hc
      rcases List.mem_map.1 hc with ⟨c0, hc0, rfl⟩
      rw [compactCol_length]
      exact mem_colList_length _ _ _ hc0
    have hlen : ((colList (r :: g0) w).map compactCol).length = w := by
      rw [List.length_map, length_colList]
    rw [compactGrid, hw]
    rw [countNE_cols _ ((colList (r :: g0) w).map compactCol).length
      (rect_fromCols _ _), colList_fromCols _ _ hcols]
    rw [List.map_map]
    have hfun : ((fun c : List Cell => c.countP (·.isSome)) ∘ compactCol) =
        fun c : List Cell => c.countP (·.isSome) := by
      funext c
      simp only [Function.comp]
      exact compactCol_countP c
    rw [hfun, ← countNE_cols _ w hg]

theorem rect_compactGrid (g : Grid) (w : Nat) (hg : Rect g w) :
    Rect (compactGrid g) w := by
  cases g with
  | nil => intro r hr; simp [compactGrid, fromCols] at hr
  | cons r g0 =>
    have hw : widthHead (r :: g0) = w := widthHead_rect r g0 w hg
    rw [compactGrid, hw]
    have := rect_fromCols ((colList (r :: g0) w).map compactCol) (r :: g0).length
    rwa [List.length_map, length_colList] at this

theorem compactMoves_compactGrid (g : Grid) (w : Nat) (hg : Rect g w) :
    compactMoves (compactGrid g) = false := by
  cases g with
  | nil => rfl
  | cons r g0 =>
    have hw : widthHead (r :: g0) = w := widthHead_rect r g0 w hg
    have hcols : ∀ c ∈ (colList (r :: g0) w).map compactCol,
        c.length = (r :: g0).length := by
      intro c hc
      rcases List.mem_map.1 hc with ⟨c0, hc0, rfl⟩
      rw [compactCol_length]
      exact mem_colList_length _ _ _ hc0
    rw [compactMoves, compactGrid, hw,
      widthHead_fromCols _ _ (by simp), colList_fromCols _ _ hcols]
    rw [List.any_eq_false]
    intro c hc
    rcases List.mem_map.1 hc with ⟨c0, hc0, rfl⟩
    simp [compactCol_idem]

theorem compactGrid_of_not_moves (g : Grid) (w : Nat) (hg : Rect g w)
    (h : compactMoves g = false) : compactGrid g = g := by
  cases g with
  | nil => rfl
  | cons r g0 =>
    have hw : widthHead (r :: g0) = w := widthHead_rect r g0 w hg
    rw [compactMoves, hw, List.any_eq_false] at h
    rw [compactGrid, hw]
    have hmap : (colList (r :: g0) w).map compactCol = colList (r :: g0) w := by
      conv_rhs => rw [← List.map_id (colList (r :: g0) w)]
      apply List.map_congr_left
      intro c hc
      have hcc := h c hc
      simpa using hcc
    rw [hmap, fromCols_colList _ _ hg]

end CursedPanels

namespace CursedPanels

theorem rect_elimGrid (g : Grid) (w : Nat) (hg : Rect g w) :
    Rect (elimGrid g) w := by
  intro r hr
  rw [elimGrid] at hr
  rcases List.mem_map.1 hr with ⟨i, hi, rfl⟩
  rw [List.mem_range] at hi
  rw [List.length_map, List.length_range]
  exact hg _ (by rw [List.getD_eq_getElem _ _ hi]; exact List.getElem_mem hi)

/-- Eliminating the marked cells removes exactly `elimCount` non-empty
cells. -/
theorem countNE_elimGrid_add (g : Grid) :
    countNE (elimGrid g) + elimCount g = countNE g := by
  have hg : countNE g = ((List.range g.length).map fun i =>
      (g.getD i []).countP (·.isSome)).sum := by
    rw [countNE]
    conv_lhs => rw [← range_map_getD g []]
    rw [List.map_map]
    rfl
  have he : countNE (elimGrid g) = ((List.range g.length).map fun i =>
      ((List.range (g.getD i []).length).map fun j =>
        if markedB g i j then none else getCell g i j).countP (·.isSome)).sum := by
    rw [countNE, elimGrid, List.map_map]
    rfl
  rw [hg, he, elimCount, ← sum_map_add]
  apply congrArg
  apply List.map_congr_left
  intro i hi
  have hA : ((List.range (g.getD i []).length).map fun j =>
      if markedB g i j then none else getCell g i j).countP (·.isSome) =
      (List.range (g.getD i []).length).countP
        (fun j => (getCell g i j).isSome && !markedB g i j) := by
    rw [List.countP_map]
    apply List.countP_congr
    intro j hj
    simp only [Function.comp]
    cases hm : markedB g i j <;> simp [hm]
  have hB : ((List.range (g.getD i []).length).filter fun j =>
      markedB g i j).length =
      (List.range (g.getD i []).length).countP (fun j => markedB g i j) :=
    (List.countP_eq_length_filter _ _).symm
  have hC : (g.getD i []).countP (·.isSome) =
      (List.range (g.getD i []).length).countP
        (fun j => (getCell g i j).isSome) := by
    conv_lhs => rw [← range_map_getD (g.getD i []) none]
    rw [List.countP_map]
    rfl
  have hsplit := countP_split (fun j => (getCell g i j).isSome)
    (fun j => markedB g i j) (List.range (g.getD i []).length)
    (fun j _ hm => markedB_isSome g i j hm)
  beta_reduce at hsplit
  rw [hA, hB, hC, hsplit]
  omega

theorem elimCount_le_countNE (g : Grid) : elimCount g ≤ countNE g := by
  have := countNE_elimGrid_add g
  omega

/-- When nothing is marked the elimination batch is the identity. -/
theorem elimGrid_of_no_marks (g : Grid) (h : elimCount g = 0) :
    elimGrid g = g := by
  rw [elimCount] at h
  rw [List.sum_eq_zero_iff] at h
  rw [elimGrid]
  conv_rhs => rw [← range_map_getD g []]
  apply List.map_congr_left
  intro i hi
  conv_rhs => rw [← range_map_getD (g.getD i []) none]
  apply List.map_congr_left
  intro j hj
  rw [List.mem_range] at hj
  have hz := h _ (List.mem_map_of_mem _ hi)
  rw [List.length_eq_zero] at hz
  have hnm : markedB g i j = false := by
    by_contra hb
    rw [Bool.not_eq_false] at hb
    have hmem : j ∈ (List.range (g.getD i []).length).filter fun j =>
        markedB g i j := List.mem_filter.2 ⟨List.mem_range.2 hj, hb⟩
    rw [hz] at hmem
    simp at hmem
  rw [hnm]
  simp only [Bool.false_eq_true, if_false]
  rfl

/-! ## Termination: the `check_stack` recursion is fuel-independent -/

/-- One unfolding step of the fueled `check_stack`. -/
theorem checkStackF_succ (fuel : Nat) (g : Grid) :
    checkStackF (fuel + 1) g =
      if compactMoves (elimGrid g) then
        (elimCount g + (checkStackF fuel (compactGrid (elimGrid g))).1,
          scoreCombine (elimCount g)
            (checkStackF fuel (compactGrid (elimGrid g))).2.1,
          (checkStackF fuel (compactGrid (elimGrid g))).2.2)
      else (elimCount g, scoreCombine (elimCount g) 0, elimGrid g) := by
  rw [checkStackF]

/-- Any two sufficient fuels compute the same `check_stack` result: the
source recursion terminates, within `2·(number of panels) + 1` passes. -/
theorem checkStackF_mu : ∀ (n : Nat) (g : Grid) (w f1 f2 : Nat),
    mu g ≤ n → Rect g w → mu g < f1 → mu g < f2 →
    checkStackF f1 g = checkStackF f2 g := by
  intro n
  induction n with
  | zero =>
    intro g w f1 f2 hmu hg h1 h2
    have hc0 : countNE g = 0 ∧ compactMoves g = false := by
      rw [mu] at hmu
      cases hcm : compactMoves g
      · rw [hcm] at hmu
        simp only [Bool.false_eq_true, if_false] at hmu
        exact ⟨by omega, rfl⟩
      · rw [hcm] at hmu
        simp at hmu
    have he0 : elimCount g = 0 := by
      have := elimCount_le_countNE g
      omega
    have hEg : elimGrid g = g := elimGrid_of_no_marks g he0
    obtain ⟨a, rfl⟩ : ∃ a, f1 = a + 1 := ⟨f1 - 1, by omega⟩
    obtain ⟨b, rfl⟩ : ∃ b, f2 = b + 1 := ⟨f2 - 1, by omega⟩
    rw [checkStackF_succ, checkStackF_succ, hEg, hc0.2]
    rfl
  | succ n ih =>
    intro g w f1 f2 hmu hg h1 h2
    obtain ⟨a, rfl⟩ : ∃ a, f1 = a + 1 := ⟨f1 - 1, by omega⟩
    obtain ⟨b, rfl⟩ : ∃ b, f2 = b + 1 := ⟨f2 - 1, by omega⟩
    rw [checkStackF_succ, checkStackF_succ]
    cases hmoved : compactMoves (elimGrid g)
    · rfl
    · have hrE : Rect (elimGrid g) w := rect_elimGrid g w hg
      have hr2 : Rect (compactGrid (elimGrid g)) w := rect_compactGrid _ w hrE
      have hc2 : countNE (compactGrid (elimGrid g)) = countNE (elimGrid g) :=
        countNE_compactGrid _ w hrE
      have hb2 : compactMoves (compactGrid (elimGrid g)) = false :=
        compactMoves_compactGrid _ w hrE
      have hmu2 : mu (compactGrid (elimGrid g)) = 2 * countNE (elimGrid g) := by
        rw [mu, hc2, hb2]
        simp
      have hadd := countNE_elimGrid_add g
      have hrec : checkStackF a (compactGrid (elimGrid g)) =
          checkStackF b (compactGrid (elimGrid g)) := by
        rcases Nat.eq_zero_or_pos (elimCount g) with he | he
        · have hEg : elimGrid g = g := elimGrid_of_no_marks g he
          rw [hEg] at hmoved
          have hmug : mu g = 2 * countNE g + 1 := by
            rw [mu, hmoved]
            simp
          exact ih _ w a b (by omega) hr2 (by omega) (by omega)
        · have hmug : 2 * countNE g ≤ mu g := by
            rw [mu]
            cases hcm : compactMoves g <;> (simp; try omega)
          exact ih _ w a b (by omega) hr2 (by omega) (by omega)
      rw [hrec]

/-- With the fuel `check_stack` supplies, the fueled recursion computes the
fuel-free result: `check_stack` is total. -/
theorem checkStackF_eq_check_stack (g : Grid) (w fuel : Nat) (hg : Rect g w)
    (hf : mu g < fuel) : checkStackF fuel g = check_stack g := by
  rw [check_stack]
  have hb : mu g < 2 * countNE g + 2 := by
    rw [mu]
    cases hcm : compactMoves g <;> (simp; try omega)
  exact checkStackF_mu (mu g) g w fuel _ le_rfl hg hf hb

/-- The defining one-step unfolding of `check_stack` when compaction does
not move anything: one marking/elimination pass and nothing more. -/
theorem check_stack_unfold_false (g : Grid)
    (h : compactMoves (elimGrid g) = false) :
    check_stack g = (elimCount g, scoreCombine (elimCount g) 0, elimGrid g) := by
  conv_lhs => rw [check_stack]
  have h22 : 2 * countNE g + 2 = (2 * countNE g + 1) + 1 := by omega
  rw [h22, checkStackF_succ, if_neg (by simp [h])]

/-- The defining one-step unfolding of `check_stack` when compaction moved
something: the chained recursive call contributes. -/
theorem check_stack_unfold_true (g : Grid) (w : Nat) (hg : Rect g w)
    (h : compactMoves (elimGrid g) = true) :
    check_stack g =
      (elimCount g + (check_stack (compactGrid (elimGrid g))).1,
        scoreCombine (elimCount g)
          (check_stack (compactGrid (elimGrid g))).2.1,
        (check_stack (compactGrid (elimGrid g))).2.2) := by
  conv_lhs => rw [check_stack]
  have h22 : 2 * countNE g + 2 = (2 * countNE g + 1) + 1 := by omega
  rw [h22, checkStackF_succ, if_pos h]
  have hrE : Rect (elimGrid g) w := rect_elimGrid g w hg
  have hr2 : Rect (compactGrid (elimGrid g)) w := rect_compactGrid _ w hrE
  have hc2 : countNE (compactGrid (elimGrid g)) = countNE (elimGrid g) :=
    countNE_compactGrid _ w hrE
  have hb2 : compactMoves (compactGrid (elimGrid g)) = false :=
    compactMoves_compactGrid _ w hrE
  have hadd := countNE_elimGrid_add g
  have hmu2 : mu (compactGrid (elimGrid g)) = 2 * countNE (elimGrid g) := by
    rw [mu, hc2, hb2]
    simp
  rw [checkStackF_eq_check_stack _ w _ hr2 (by omega)]

end CursedPanels

namespace CursedPanels

/-! ## Facts about `build_initial_stack` -/

theorem getD_take_gen {α : Type} (l : List α) (d : α) (m k : Nat) (h : k < m) :
    (l.take m).getD k d = l.getD k d := by
  induction l generalizing m k with
  | nil => simp
  | cons c t ih =>
    cases m with
    | zero => omega
    | succ m =>
      cases k with
      | zero => simp
      | succ k => simpa using ih m k (by omega)

/-- A cell built above an empty cell is empty. -/
theorem buildCell_prev_empty (symbols : List Nat) (length : Nat) (stack : Grid)
    (row : List Cell) (stream : Nat → Nat) (i fuel : Nat)
    (hl : stack.length ≠ 0)
    (hprev : getCell stack (stack.length - 1) row.length = none) :
    buildCell symbols length stack row stream i fuel = some (none, i) := by
  rw [buildCell]
  simp only [if_neg hl, if_pos hprev]

/-- A cell built at or beyond the cutoff row is empty. -/
theorem buildCell_cutoff (symbols : List Nat) (length : Nat) (stack : Grid)
    (row : List Cell) (stream : Nat → Nat) (i fuel : Nat)
    (hl : stack.length ≠ 0)
    (hc : cutoffReached stack.length length = true) :
    buildCell symbols length stack row stream i fuel = some (none, i) := by
  rw [buildCell]
  by_cases hprev : getCell stack (stack.length - 1) row.length = none
  · simp only [if_neg hl, if_pos hprev]
  · simp only [if_neg hl, if_neg hprev, if_pos hc]

/-- Rows built at or beyond the cutoff are entirely empty. -/
theorem buildRow_cutoff (symbols : List Nat) (length : Nat) (stack : Grid)
    (stream : Nat → Nat) (fuel : Nat) (hl : stack.length ≠ 0)
    (hc : cutoffReached stack.length length = true) :
    ∀ (n : Nat) (row : List Cell) (i : Nat),
      buildRow symbols length stack stream fuel n (row, i) =
        some (row ++ List.replicate n none, i) := by
  intro n
  induction n with
  | zero => intro row i; simp [buildRow]
  | succ n ih =>
    intro row i
    rw [buildRow, buildCell_cutoff symbols length stack row stream i fuel hl hc]
    show buildRow symbols length stack stream fuel n (row ++ [none], i) =
      some (row ++ List.replicate (n + 1) none, i)
    rw [ih (row ++ [none]) i, List.append_assoc]
    rfl

/-- Cells of a built row sitting above an empty cell are empty. -/
theorem buildRow_contig (symbols : List Nat) (length : Nat) (stack : Grid)
    (stream : Nat → Nat) (fuel : Nat) (hl : stack.length ≠ 0) :
    ∀ (n : Nat) (row : List Cell) (i : Nat) (out : List Cell × Nat),
      buildRow symbols length stack stream fuel n (row, i) = some out →
      (∃ ext, out.1 = row ++ ext) ∧
      (∀ w, row.length ≤ w →
        getCell stack (stack.length - 1) w = none → out.1.getD w none = none) := by
  intro n
  induction n with
  | zero =>
    intro row i out hout
    rw [buildRow] at hout
    cases hout
    refine ⟨⟨[], by simp⟩, ?_⟩
    intro w hw hprev
    exact List.getD_eq_default _ _ (by simpa using hw)
  | succ n ih =>
    intro row i out hout
    rw [buildRow] at hout
    cases hcell : buildCell symbols length stack row stream i fuel with
    | none =>
      rw [hcell] at hout
      exact absurd hout (by simp)
    | some ci =>
      rw [hcell] at hout
      obtain ⟨⟨ext, hext⟩, hih⟩ := ih (row ++ [ci.1]) ci.2 out hout
      constructor
      · exact ⟨ci.1 :: ext, by rw [hext, List.append_assoc]; rfl⟩
      intro w hw hprev
      rcases Nat.eq_or_lt_of_le hw with heq | hw'
      · have hci : ci.1 = none := by
          have hpe := buildCell_prev_empty symbols length stack row stream i fuel hl
            (by rw [heq]; exact hprev)
          rw [hpe] at hcell
          cases hcell
          rfl
        rw [hext, List.getD_append _ _ _ _ (by simp; omega),
          List.getD_append_right _ _ _ _ (by omega), ← heq, Nat.sub_self]
        rw [hci]
        rfl
      · exact hih w (by simp; omega) hprev

end CursedPanels

namespace CursedPanels

theorem getD_replicate_any {α : Type} (x d : α) (n w : Nat) (h : w < n) :
    (List.replicate n x).getD w d = x := by
  rw [List.getD_eq_getElem _ _ (by simpa using h)]
  exact List.getElem_replicate ..

theorem replicate_none_getD (n w : Nat) :
    (List.replicate n (none : Cell)).getD w none = none := by
  rcases Nat.lt_or_ge w n with h | h
  · exact getD_replicate_any none none n w h
  · exact List.getD_eq_default _ _ (by simpa using h)

/-- Every row of a built stack is the result of one `buildRow` pass over
the rows below it. -/
theorem buildRows_spec (symbols : List Nat) (length width : Nat)
    (stream : Nat → Nat) (fuel : Nat) :
    ∀ (n : Nat) (stack : Grid) (i : Nat) (out : Grid × Nat),
      buildRows symbols length width stream fuel n (stack, i) = some out →
      out.1.length = stack.length + n ∧
      out.1.take stack.length = stack ∧
      ∀ l, stack.length ≤ l → l < out.1.length →
        ∃ j j', buildRow symbols length (out.1.take l) stream fuel width ([], j) =
          some (out.1.getD l [], j') := by
  intro n
  induction n with
  | zero =>
    intro stack i out hout
    rw [buildRows] at hout
    cases hout
    exact ⟨by simp, by simp, fun l hl1 hl2 => absurd hl2 (by simp; omega)⟩
  | succ n ih =>
    intro stack i out hout
    rw [buildRows] at hout
    cases hrow : buildRow symbols length stack stream fuel width ([], i) with
    | none =>
      rw [hrow] at hout
      exact absurd hout (by simp)
    | some ri =>
      rw [hrow] at hout
      obtain ⟨hlen, htake, hrows⟩ := ih (stack ++ [ri.1]) ri.2 out hout
      have h1 : out.1.take (stack.length + 1) = stack ++ [ri.1] := by
        simpa using htake
      have hlen2 : out.1.length = stack.length + (n + 1) := by
        simp at hlen
        omega
      have htake2 : out.1.take stack.length = stack := by
        have h2 : out.1.take stack.length =
            (out.1.take (stack.length + 1)).take stack.length := by
          rw [List.take_take]
          congr 1
          omega
        rw [h2, h1, List.take_left]
      refine ⟨hlen2, htake2, ?_⟩
      intro l hl1 hl2
      rcases Nat.eq_or_lt_of_le hl1 with heq | hlt
      · refine ⟨i, ri.2, ?_⟩
        have hT : out.1.take l = stack := by
          rw [← heq]
          exact htake2
        have hD : out.1.getD l [] = ri.1 := by
          have h3 : out.1.getD l [] = (out.1.take (stack.length + 1)).getD l [] :=
            (getD_take_gen _ _ _ _ (by omega)).symm
          rw [h3, h1, ← heq, List.getD_append_right _ _ _ _ (Nat.le_refl _),
            Nat.sub_self]
          rfl
        rw [hT, hD]
        exact hrow
      · exact hrows l (by simp; omega) hl2

/-- Any row of a built initial stack whose index reaches the cutoff is
entirely empty, and the stack has exactly `length` rows. -/
theorem build_initial_stack_cutoff (symbols : List Nat) (length width : Nat)
    (stream : Nat → Nat) (fuel : Nat) (g : Grid)
    (h : build_initial_stack symbols length width stream fuel = some g) :
    g.length = length ∧
    ∀ l w, 3 * length ≤ 4 * l → getCell g l w = none := by
  rw [build_initial_stack] at h
  rcases hopt : buildRows symbols length width stream fuel length ([], 0) with _ | out
  · rw [hopt] at h
    exact absurd h (by simp)
  rw [hopt, Option.map_some'] at h
  have hg : g = out.1 := (Option.some_inj.1 h).symm
  subst hg
  obtain ⟨hlen, -, hrows⟩ := buildRows_spec symbols length width stream fuel
    length [] 0 out hopt
  simp only [List.length_nil, Nat.zero_add] at hlen
  refine ⟨hlen, ?_⟩
  intro l w hcut
  rcases Nat.lt_or_ge l out.1.length with hl | hl
  · have hl1 : 1 ≤ l := by
      by_contra hl0
      omega
    obtain ⟨j, j', hrow⟩ := hrows l (by simp) hl
    have htl : (out.1.take l).length = l := by
      rw [List.length_take]
      omega
    have hcf : cutoffReached (out.1.take l).length length = true := by
      rw [htl, cutoffReached]
      exact decide_eq_true (by omega)
    have hcr := buildRow_cutoff symbols length (out.1.take l) stream fuel
      (by omega) hcf width [] j
    rw [hcr] at hrow
    have hrowl : out.1.getD l [] = List.replicate width none := by
      have h2 := congrArg Prod.fst (Option.some_inj.1 hrow)
      simpa using h2.symm
    rw [getCell, hrowl, replicate_none_getD]
  · rw [getCell]
    have hout : out.1.getD l [] = [] := List.getD_eq_default _ _ (by omega)
    rw [hout]
    rfl

/-- In a built initial stack a cell directly above an empty cell is
empty: columns have no internal gaps. -/
theorem build_initial_stack_contig (symbols : List Nat) (length width : Nat)
    (stream : Nat → Nat) (fuel : Nat) (g : Grid)
    (h : build_initial_stack symbols length width stream fuel = some g) :
    ∀ l w, 1 ≤ l → l < g.length →
      getCell g (l - 1) w = none → getCell g l w = none := by
  rw [build_initial_stack] at h
  rcases hopt : buildRows symbols length width stream fuel length ([], 0) with _ | out
  · rw [hopt] at h
    exact absurd h (by simp)
  rw [hopt, Option.map_some'] at h
  have hg : g = out.1 := (Option.some_inj.1 h).symm
  subst hg
  obtain ⟨hlen, -, hrows⟩ := buildRows_spec symbols length width stream fuel
    length [] 0 out hopt
  intro l w hl1 hl2
  intro hprev
  obtain ⟨j, j', hrow⟩ := hrows l (by simp) hl2
  have htl : (out.1.take l).length = l := by
    rw [List.length_take]
    omega
  obtain ⟨-, hih⟩ := buildRow_contig symbols length (out.1.take l) stream fuel
    (by omega) width [] j _ hrow
  have hprev2 : getCell (out.1.take l) ((out.1.take l).length - 1) w = none := by
    rw [getCell, htl, getD_take_gen _ _ _ _ (by omega)]
    exact hprev
  have hrl := hih w (by simp) hprev2
  rw [getCell]
  exact hrl

end CursedPanels

namespace CursedPanels

/-- Any cell built above a row of empty cells is empty, with no draws
consumed. -/
theorem buildRow_prev_none (symbols : List Nat) (length : Nat) (stack : Grid)
    (stream : Nat → Nat) (fuel : Nat) (hl : stack.length ≠ 0)
    (hprev : ∀ w, getCell stack (stack.length - 1) w = none) :
    ∀ (n : Nat) (row : List Cell) (i : Nat),
      buildRow symbols length stack stream fuel n (row, i) =
        some (row ++ List.replicate n none, i) := by
  intro n
  induction n with
  | zero => intro row i; simp [buildRow]
  | succ n ih =>
    intro row i
    rw [buildRow, buildCell_prev_empty symbols length stack row stream i fuel hl
      (hprev row.length)]
    show buildRow symbols length stack stream fuel n (row ++ [none], i) =
      some (row ++ List.replicate (n + 1) none, i)
    rw [ih (row ++ [none]) i, List.append_assoc]
    rfl

/-- With an empty alphabet every draw of row 0 is the empty outcome. -/
theorem buildRow_zero_nosym (length : Nat) (stream : Nat → Nat) (fuel : Nat) :
    ∀ (n : Nat) (row : List Cell) (i : Nat),
      buildRow [] length [] stream fuel n (row, i) =
        some (row ++ List.replicate n none, i + n) := by
  intro n
  induction n with
  | zero => intro row i; simp [buildRow]
  | succ n ih =>
    intro row i
    have hcell : buildCell [] length [] row stream i fuel = some (none, i + 1) := by
      rw [buildCell]
      simp [drawSym, Nat.mod_one]
    rw [buildRow, hcell]
    show buildRow [] length [] stream fuel n (row ++ [none], i + 1) =
      some (row ++ List.replicate (n + 1) none, i + (n + 1))
    rw [ih (row ++ [none]) (i + 1), List.append_assoc]
    have hadd : i + 1 + n = i + (n + 1) := by omega
    rw [hadd]
    rfl

/-- With an empty alphabet the whole generation pass succeeds and returns
the entirely-Empty grid. -/
theorem buildRows_nosym (length width : Nat) (stream : Nat → Nat) (fuel : Nat) :
    ∀ (n k i : Nat), ∃ i',
      buildRows [] length width stream fuel n
        (List.replicate k (List.replicate width none), i) =
      some (List.replicate (k + n) (List.replicate width none), i') := by
  intro n
  induction n with
  | zero =>
    intro k i
    exact ⟨i, by simp [buildRows]⟩
  | succ n ih =>
    intro k i
    cases k with
    | zero =>
      obtain ⟨i', hih⟩ := ih 1 (i + width)
      refine ⟨i', ?_⟩
      rw [buildRows]
      simp only [List.replicate_zero]
      rw [buildRow_zero_nosym length stream fuel width [] i]
      show buildRows [] length width stream fuel n
        ([] ++ [[] ++ List.replicate width none], i + width) = _
      have hrw : [] ++ [[] ++ List.replicate width (none : Cell)] =
          List.replicate 1 (List.replicate width (none : Cell)) := by simp
      rw [hrw, hih]
      have hn : 1 + n = 0 + (n + 1) := by omega
      rw [hn]
    | succ m =>
      have hprev : ∀ w, getCell (List.replicate (m + 1)
          (List.replicate width (none : Cell)))
          ((List.replicate (m + 1) (List.replicate width (none : Cell))).length - 1)
          w = none := by
        intro w
        rw [getCell, List.length_replicate,
          getD_replicate_any _ _ _ _ (by omega), replicate_none_getD]
      obtain ⟨i', hih⟩ := ih (m + 2) i
      refine ⟨i', ?_⟩
      rw [buildRows, buildRow_prev_none [] length _ stream fuel
        (by rw [List.length_replicate]; omega) hprev width [] i]
      show buildRows [] length width stream fuel n
        (List.replicate (m + 1) (List.replicate width none) ++
          [[] ++ List.replicate width none], i) = _
      have hrw : List.replicate (m + 1) (List.replicate width (none : Cell)) ++
          [[] ++ List.replicate width (none : Cell)] =
          List.replicate (m + 2) (List.replicate width (none : Cell)) := by
        rw [List.nil_append, List.replicate_succ' (m + 1)]
      rw [hrw, hih]
      have hn : m + 2 + n = m + 1 + (n + 1) := by omega
      rw [hn]

/-- No validation guards construction: with an empty alphabet the initial
grid is still generated, entirely Empty. -/
theorem build_initial_stack_nosym (length width : Nat) (stream : Nat → Nat)
    (fuel : Nat) :
    build_initial_stack [] length width stream fuel =
      some (List.replicate length (List.replicate width none)) := by
  rw [build_initial_stack]
  obtain ⟨i', h⟩ := buildRows_nosym length width stream fuel length 0 0
  simp only [List.replicate_zero] at h
  rw [h]
  simp

end CursedPanels

namespace CursedPanels

/-! ## The claims -/

/-- Claim C1 (amended): `check_stack` marks exactly the cells lying in
maximal contiguous same-symbol runs of length at least `MIN_MATCH + 1`
(not `MIN_MATCH`), along the row direction and the column direction, and
its elimination batch sets exactly the marked cells to Empty, computed on
the pre-elimination grid. -/
theorem C1_marks_runs (g : Grid) (i j : Nat) :
    markedB g i j = eliminable g i j ∧
    getCell (elimGrid g) i j =
      (if markedB g i j then none else getCell g i j) :=
  ⟨markedB_iff_eliminable g i j, getCell_elimGrid g i j⟩

/-- Claim C1, counterexample to the claim as stated: two adjacent
identical non-empty cells (a run of length `MIN_MATCH` = 2) are NOT
eliminated — `check_stack` returns `(0, 0)` and leaves the grid
unchanged. -/
theorem C1_cex :
    getCell [[some 0], [some 0], [some 1], [none]] 0 0 = some 0 ∧
    getCell [[some 0], [some 0], [some 1], [none]] 1 0 = some 0 ∧
    check_stack [[some 0], [some 0], [some 1], [none]] =
      (0, 0, [[some 0], [some 0], [some 1], [none]]) := by
  refine ⟨rfl, rfl, ?_⟩
  decide

/-- Claim C2 (amended): the game-over flag returned by `update_stack` is
true iff some cell of row `length - 1` (not `length - 2`) of the
post-advance, post-cycle grid is non-empty. -/
theorem C2_game_over_flag (symbols : List Nat) (width : Nat) (g : Grid)
    (stream : Nat → Nat) (i fuel : Nat) (e s : Nat) (flag : Bool) (g' : Grid)
    (h : update_stack symbols width g stream i fuel true =
      some (e, s, flag, g')) :
    flag = game_over g' ∧
    (flag = true ↔ ∃ c ∈ g'.getD (g'.length - 1) [], c.isSome = true) := by
  rw [update_stack, if_pos rfl] at h
  cases hadv : advance_stack symbols width g stream i fuel with
  | none =>
    rw [hadv] at h
    exact absurd h (by simp)
  | some gi =>
    rw [hadv] at h
    have h2 := Option.some_inj.1 h
    simp only [Prod.mk.injEq] at h2
    obtain ⟨-, -, hflag, hg'⟩ := h2
    subst hg'
    refine ⟨hflag.symm, ?_⟩
    rw [← hflag, game_over, List.any_eq_true]

/-- Claim C2, witness for the amended theorem at a concrete advance. -/
theorem C2_game_over_flag_witness :
    update_stack [0, 1] 1 [[some 0], [none], [none]] (fun _ => 1) 0 5 true =
      some (0, 0, false, [[some 1], [some 0], [none]]) ∧
    (false = game_over [[some 1], [some 0], [none]] ∧
      (false = true ↔ ∃ c ∈ [[some 1], [some 0],
        [none]].getD (([[some 1], [some 0], [none]] : Grid).length - 1) [],
        c.isSome = true)) :=
  ⟨by decide,
    C2_game_over_flag [0, 1] 1 [[some 0], [none], [none]] (fun _ => 1) 0 5
      0 0 false [[some 1], [some 0], [none]] (by decide)⟩

/-- Claim C2, counterexample to the claim as stated: after this
`update_stack` the cell in row `length - 2` of the final grid is
non-empty, yet the game-over flag returned is `false` (the source tests
row `length - 1`). -/
theorem C2_cex :
    update_stack [0, 1] 1 [[some 0], [none], [none]] (fun _ => 1) 0 5 true =
      some (0, 0, false, [[some 1], [some 0], [none]]) ∧
    getCell [[some 1], [some 0], [none]]
      (([[some 1], [some 0], [none]] : Grid).length - 2) 0 = some 0 := by
  refine ⟨by decide, rfl⟩

/-- Claim C3 (amended): every row of the generated initial stack whose
index reaches `0.75 × length` is entirely Empty and the stack has exactly
`length` rows; the no-run guarantee of the claim does not hold (see the
counterexample). -/
theorem C3_cutoff_empty (symbols : List Nat) (length width : Nat)
    (stream : Nat → Nat) (fuel : Nat) (g : Grid)
    (h : build_initial_stack symbols length width stream fuel = some g) :
    g.length = length ∧
    ∀ l w, 3 * length ≤ 4 * l → getCell g l w = none :=
  build_initial_stack_cutoff symbols length width stream fuel g h

/-- Claim C3, witness for the amended theorem on a concrete generation. -/
theorem C3_cutoff_empty_witness :
    build_initial_stack [0, 1] 4 1 (fun k => [0, 0, 1].getD k 0) 5 =
      some [[some 0], [some 0], [some 1], [none]] ∧
    getCell [[some 0], [some 0], [some 1], [none]] 3 0 = none :=
  ⟨by decide,
    (C3_cutoff_empty [0, 1] 4 1 (fun k => [0, 0, 1].getD k 0) 5
      [[some 0], [some 0], [some 1], [none]] (by decide)).2 3 0 (by decide)⟩

/-- Claim C3, counterexample to the claim as stated: a run of length
`MIN_MATCH` (two adjacent identical symbols along the row direction)
appears in a generated initial stack — the placement check only rejects a
symbol when both of its two predecessors already carry it. -/
theorem C3_cex :
    build_initial_stack [0, 1] 4 1 (fun k => [0, 0, 1].getD k 0) 5 =
      some [[some 0], [some 0], [some 1], [none]] ∧
    (getCell [[some 0], [some 0], [some 1], [none]] 0 0).isSome = true ∧
    MIN_MATCH ≤ runLen (colO [[some 0], [some 0], [some 1], [none]] 0) 0 := by
  refine ⟨by decide, rfl, by decide⟩

end CursedPanels

namespace CursedPanels

/-- Claim C4 (amended): the level score of `check_stack` is
`round(e² + 1.5·s)` under round-half-to-even — exactly `e² + 1.5·s`
whenever `s` is even, the nearest even integer when `s` is odd — and the
chained score passes through unmodified when `e = 0`. -/
theorem C4_chain_score (g : Grid) (w : Nat) (hg : Rect g w) :
    (check_stack g).2.1 = scoreCombine (elimCount g) (chainScore g) ∧
    (elimCount g = 0 → (check_stack g).2.1 = chainScore g) ∧
    (∀ e s : Nat, 0 < e → s % 2 = 0 →
      ((scoreCombine e s : Nat) : ℚ) = (e : ℚ) ^ 2 + (3 / 2) * (s : ℚ)) := by
  have h1 : (check_stack g).2.1 = scoreCombine (elimCount g) (chainScore g) := by
    cases hmoved : compactMoves (elimGrid g)
    · rw [check_stack_unfold_false g hmoved, chainScore,
        if_neg (by rw [hmoved]; simp)]
    · rw [check_stack_unfold_true g w hg hmoved, chainScore, if_pos hmoved]
  refine ⟨h1, ?_, ?_⟩
  · intro he
    rw [h1, he, scoreCombine, if_neg (by omega)]
  · intro e s hepos hsev
    obtain ⟨m, rfl⟩ : ∃ m, s = 2 * m := ⟨s / 2, by omega⟩
    have hsc : scoreCombine e (2 * m) = e ^ 2 + 3 * m := by
      rw [scoreCombine, if_pos hepos, roundHalf2, if_pos (by omega)]
      omega
    rw [hsc]
    push_cast
    ring

/-- Claim C4, witness for the amended theorem on a concrete grid chain. -/
theorem C4_chain_score_witness :
    (check_stack [[some 1], [some 0], [some 0], [some 0], [some 1],
      [some 1]]).2.1 =
      scoreCombine
        (elimCount [[some 1], [some 0], [some 0], [some 0], [some 1],
          [some 1]])
        (chainScore [[some 1], [some 0], [some 0], [some 0], [some 1],
          [some 1]]) :=
  (C4_chain_score [[some 1], [some 0], [some 0], [some 0], [some 1],
    [some 1]] 1 (by unfold Rect; decide)).1

/-- Claim C4, counterexample to the claim as stated: this grid eliminates
`e = 3` cells, its chained call returns `s = 9`, and the returned total is
`22`, the round-half-to-even of `22.5` — not exactly `e² + 1.5·s`. -/
theorem C4_cex :
    elimCount [[some 1], [some 0], [some 0], [some 0], [some 1],
      [some 1]] = 3 ∧
    chainScore [[some 1], [some 0], [some 0], [some 0], [some 1],
      [some 1]] = 9 ∧
    (check_stack [[some 1], [some 0], [some 0], [some 0], [some 1],
      [some 1]]).2.1 = 22 ∧
    ((22 : ℚ) ≠ (3 : ℚ) ^ 2 + (3 / 2) * (9 : ℚ)) := by
  refine ⟨by decide, by decide, by decide, by norm_num⟩

/-- Claim C5 (amended): the match/eliminate/compact chain of `check_stack`
terminates on every rectangular grid — any fuel of at least
`2 × (number of panels) + 2` passes computes its result (the divergences
of the claim as stated are in `advance_stack`, see the counterexample). -/
theorem C5_check_stack_terminates (g : Grid) (w fuel : Nat) (hg : Rect g w)
    (hf : 2 * countNE g + 2 ≤ fuel) :
    checkStackF fuel g = check_stack g := by
  apply checkStackF_eq_check_stack g w fuel hg
  rw [mu]
  cases hcm : compactMoves g <;> (simp; omega)

/-- Claim C5, witness for the amended theorem on a concrete grid. -/
theorem C5_check_stack_terminates_witness :
    checkStackF 100 [[some 1], [some 0], [some 0], [some 0], [some 1],
      [some 1]] =
      check_stack [[some 1], [some 0], [some 0], [some 0], [some 1],
        [some 1]] :=
  C5_check_stack_terminates [[some 1], [some 0], [some 0], [some 0],
    [some 1], [some 1]] 1 100 (by unfold Rect; decide) (by decide)

/-- Claim C5, counterexample to the claim as stated: with an alphabet of
one symbol and width 3 — inside the claim's documented domain — the
resampling loop of `advance_stack` never draws an acceptable symbol, so
`advance_stack` and `update_stack` do not return (no fuel suffices; here
100 redraw steps all fail); `update_stack` also fails when called while no
advance is due (unbound locals in the source). -/
theorem C5_cex :
    advance_stack [5] 3 [[some 5, some 5, some 5]] (fun _ => 0) 0 100 =
      none ∧
    update_stack [5] 3 [[some 5, some 5, some 5]] (fun _ => 0) 0 100 true =
      none ∧
    update_stack [5] 3 [[some 5, some 5, some 5]] (fun _ => 0) 0 100 false =
      none := by
  refine ⟨by decide, by decide, rfl⟩

end CursedPanels

namespace CursedPanels

/-- Claim C6 (amended): construction performs no validation at all — with
an empty symbol alphabet the initial grid is still generated (entirely
Empty) for every dimension pair and RNG stream, and the failure only
surfaces later, when `advance_stack` attempts its first draw. -/
theorem C6_no_validation :
    (∀ (length width : Nat) (stream : Nat → Nat) (fuel : Nat),
      build_initial_stack [] length width stream fuel =
        some (List.replicate length (List.replicate width none))) ∧
    (∀ (width : Nat) (g : Grid) (stream : Nat → Nat) (i fuel : Nat),
      advance_stack [] (width + 1) g stream i fuel = none) := by
  constructor
  · intro length width stream fuel
    exact build_initial_stack_nosym length width stream fuel
  · intro width g stream i fuel
    rw [advance_stack, advRow]
    rfl

/-- Claim C6, counterexample to the claim as stated: constructing with an
empty alphabet does not fail fast — a (3 × 2, entirely Empty) grid is
built. -/
theorem C6_cex :
    build_initial_stack [] 3 2 (fun _ => 0) 5 =
      some [[none, none], [none, none], [none, none]] := by
  decide

/-- Claim C7 (amended): on any already-compacted grid with no eliminable
runs — in particular any grid `check_stack` has just returned —
`check_stack` returns `(0, 0)` and leaves every cell unchanged.
(Compactness is necessary: see the counterexample.) -/
theorem C7_second_call (g : Grid) (h1 : runFree g = true)
    (h2 : compactMoves g = false) :
    check_stack g = (0, 0, g) := by
  have he : elimCount g = 0 := by
    rw [elimCount, List.sum_eq_zero_iff]
    intro x hx
    rcases List.mem_map.1 hx with ⟨i, hi, rfl⟩
    rw [List.length_eq_zero, List.filter_eq_nil_iff]
    intro j hj
    rw [runFree, List.all_eq_true] at h1
    have hij := h1 i hi
    rw [List.all_eq_true] at hij
    have hb := hij j hj
    rw [markedB_iff_eliminable]
    simp only [Bool.not_eq_true'] at hb
    rw [hb]
    simp
  have hg1 : elimGrid g = g := elimGrid_of_no_marks g he
  rw [check_stack_unfold_false g (by rw [hg1]; exact h2), he, hg1]
  rfl

/-- Claim C7, witness for the amended theorem on a concrete compacted
run-free grid. -/
theorem C7_second_call_witness :
    check_stack [[some 0], [some 1], [none]] =
      (0, 0, [[some 0], [some 1], [none]]) :=
  C7_second_call [[some 0], [some 1], [none]] (by decide) (by decide)

/-- Claim C7, counterexample to the claim as stated: this grid has no
eliminable runs, yet `check_stack` is not the identity on it — its
compaction pass creates a run of three, which the chained pass then
eliminates, returning `(3, 9)` and an emptied grid. -/
theorem C7_cex :
    runFree [[some 0], [none], [some 0], [some 0]] = true ∧
    check_stack [[some 0], [none], [some 0], [some 0]] =
      (3, 9, [[none], [none], [none], [none]]) := by
  refine ⟨by decide, by decide⟩

end CursedPanels

namespace CursedPanels

/-- Claim C8: pause/resume round-trip — after `pause` at `t_p` and
`unpause` at `t_u`, every subsequent `advance_ready` decision (at any
time `t`, for any threshold `τ`) is identical to the decision with no
pause and the pause duration `t_u - t_p` excluded from the elapsed-time
measurement. -/
theorem C8_pause_roundtrip (s : PaceState) (τ t_p t_u t : ℚ) :
    advance_ready (unpause (pause s t_p) t_u) t τ =
      advance_ready s (t - (t_u - t_p)) τ := by
  unfold advance_ready pause unpause
  have h : t - (t_u - (t_p - s.last_up)) = t - (t_u - t_p) - s.last_up := by
    ring
  rw [h]

/-- Claim C9 (amended): `reset` zeroes the score, restores the
construction-time speed, and rebuilds the grid — but it leaves the
eliminated-panel progression counter `panels` and the cursor (position
and selection flag) untouched. -/
theorem C9_reset (st : GameState) (symbols : List Nat) (length width : Nat)
    (stream : Nat → Nat) (fuel : Nat) (st' : GameState)
    (h : reset st symbols length width stream fuel = some st') :
    st'.score = 0 ∧ st'.spd = st.base_spd ∧
    build_initial_stack symbols length width stream fuel = some st'.stack ∧
    st'.panels = st.panels ∧ st'.cursor = st.cursor ∧
    st'.base_spd = st.base_spd := by
  rw [reset] at h
  cases hb : build_initial_stack symbols length width stream fuel with
  | none =>
    rw [hb] at h
    exact absurd h (by simp)
  | some g =>
    rw [hb, Option.map_some'] at h
    have h2 := Option.some_inj.1 h
    rw [← h2]
    exact ⟨rfl, rfl, by simp [hb], rfl, rfl, rfl⟩

/-- Claim C9, witness for the amended theorem at a concrete reset. -/
theorem C9_reset_witness :
    reset stC9 [0] 2 1 (fun _ => 0) 3 =
      some { stC9 with score := 0, spd := 1, stack := [[some 0], [some 0]] } ∧
    ({ stC9 with score := 0, spd := 1, stack := [[some 0], [some 0]] } : GameState).panels = stC9.panels :=
  ⟨by rfl,
    (C9_reset stC9 [0] 2 1 (fun _ => 0) 3
      { stC9 with score := 0, spd := 1, stack := [[some 0], [some 0]] }
      (by rfl)).2.2.2.1⟩

/-- Claim C9, counterexample to the claim as stated: after this reset the
panel counter is still 5 and the cursor still at (2, 3) with the
selection flag set — not the full reset the claim describes. -/
theorem C9_cex :
    (reset stC9 [0] 2 1 (fun _ => 0) 3).map
      (fun s => (s.score, s.spd, s.panels, s.cursor.px, s.cursor.py,
        s.cursor.select)) = some (0, 1, 5, 2, 3, true) ∧
    ¬((5 : Nat) = 0 ∧ (2 : Nat) = 0 ∧ (3 : Nat) = 0 ∧ true = false) := by
  refine ⟨by rfl, by simp⟩

/-- Claim C10: in every grid produced by `build_initial_stack`, each
column's non-empty cells form a contiguous block from row index 0 — a
cell directly above an empty cell is itself empty, so the initial board
has no floating panels and no internal column gaps. -/
theorem C10_no_gaps (symbols : List Nat) (length width : Nat)
    (stream : Nat → Nat) (fuel : Nat) (g : Grid)
    (h : build_initial_stack symbols length width stream fuel = some g) :
    ∀ l w, 1 ≤ l → l < g.length →
      getCell g (l - 1) w = none → getCell g l w = none :=
  build_initial_stack_contig symbols length width stream fuel g h

/-- Claim C10, witness on a concrete generation: with a stream that only
draws the empty outcome every cell is Empty, and the theorem derives the
emptiness of row 1 from the emptiness of row 0. -/
theorem C10_no_gaps_witness :
    build_initial_stack [0, 1] 4 1 (fun _ => 2) 5 =
      some [[none], [none], [none], [none]] ∧
    getCell [[none], [none], [none], [none]] 1 0 = none :=
  ⟨by decide,
    C10_no_gaps [0, 1] 4 1 (fun _ => 2) 5 [[none], [none], [none], [none]]
      (by decide) 1 0 (by decide) (by decide) (by decide)⟩

end CursedPanels
